import Mathlib

/-!
# Run orchestration core: shallow embedding and verification

This file embeds the run-orchestration core of the repository
(`backend/app/services/run_state.py` and
`backend/app/services/pipeline_runner.py`, with the request/response
shapes of `backend/app/schemas/pipeline.py`) and proves the frozen
claims about it.

Modelling conventions:
* Python dicts are association lists with first-occurrence lookup and
  replace-first-or-append assignment (`dictGet` / `dictSet`); a Python
  dict never holds a key twice, so this is exact.
* The per-run `asyncio.Queue` is modelled as the append-only list of
  items ever put on it, in publication order; `none` is the closing
  sentinel the source enqueues as Python `None`.  The source serializes
  each event to a `data: <json>` SSE string before enqueueing; the
  structured `Event` value is the content of that string.
* JSON-like Python values are the inductive `Value`; Python floats are
  carried as rationals (only their identity matters here), and
  dataclass payloads (which the source immediately converts with
  `asdict`) are carried directly as their dict form.
* Stage executors are opaque blocking callables; they are modelled as
  functions from the list of previously accumulated stage results to
  `Except String Value` (`.error` is a raised exception carrying
  `str(exc)`).  `uuid.uuid4().hex` and `datetime.utcnow()` are
  environment-supplied inputs and appear as explicit parameters.
-/

/-- Generic first-occurrence lookup in an association list, the model of
Python `dict.get` / `dict[...]` reads. -/
def dictGet {α β : Type} [DecidableEq α] (l : List (α × β)) (k : α) : Option β :=
  (l.find? (fun e => e.1 = k)).map Prod.snd

/-- Generic assignment `d[k] = v` on an association list: replaces the first
binding of `k` in place, appending when `k` is absent — Python dict
assignment semantics. -/
def dictSet {α β : Type} [DecidableEq α] : List (α × β) → α → β → List (α × β)
  | [], k, v => [(k, v)]
  | e :: es, k, v => if e.1 = k then (k, v) :: es else e :: dictSet es k v

/-- `schemas/pipeline.py`: the `PipelinePlatform` enum. -/
inductive PipelinePlatform where
  | instagram
  | tiktok
  deriving DecidableEq, Repr

/-- `schemas/pipeline.py`: the `PipelineStage` enum. -/
inductive PipelineStage where
  | ingest
  | narrative
  | voiceover
  | editing
  | packaging
  | analytics
  | completed
  deriving DecidableEq, Repr

/-- The `.value` of a `PipelineStage` member. -/
def PipelineStage.value : PipelineStage → String
  | .ingest => "ingest"
  | .narrative => "narrative"
  | .voiceover => "voiceover"
  | .editing => "editing"
  | .packaging => "packaging"
  | .analytics => "analytics"
  | .completed => "completed"

/-- Position of a stage in the declared `PIPELINE_STAGE_ORDER`. -/
def stageIdx : PipelineStage → Nat
  | .ingest => 0
  | .narrative => 1
  | .voiceover => 2
  | .editing => 3
  | .packaging => 4
  | .analytics => 5
  | .completed => 6

/-- `schemas/pipeline.py`: the `PipelineRunStatus` enum. -/
inductive PipelineRunStatus where
  | queued
  | running
  | completed
  | error
  deriving DecidableEq, Repr

/-- `run_state.py`: `PIPELINE_STAGE_ORDER`. -/
def PIPELINE_STAGE_ORDER : List PipelineStage :=
  [.ingest, .narrative, .voiceover, .editing, .packaging, .analytics, .completed]

/-- JSON-like Python values flowing through stage payloads. -/
inductive Value where
  | str (s : String)
  | int (n : Int)
  | float (q : Rat)
  | pynone
  | list (items : List Value)
  | tup (items : List Value)
  | dict (entries : List (String × Value))
  deriving Repr

/-- `schemas/pipeline.py`: `PipelineStageSnapshot`. -/
structure PipelineStageSnapshot where
  stage : PipelineStage
  status : String
  detail : Option String
  payload : Option Value
  deriving Repr

/-- `schemas/pipeline.py`: `PipelineRunRequest`. -/
structure PipelineRunRequest where
  run_name : String
  platforms : List PipelinePlatform
  stock_keywords : List String
  notes : Option String
  deriving Repr

/-- `schemas/pipeline.py`: `PipelineRunResponse`. -/
structure PipelineRunResponse where
  run_name : String
  stages : List PipelineStageSnapshot
  outputs : List (String × Value)
  deriving Repr

/-- `schemas/pipeline.py`: `PipelineRunStatusResponse`. -/
structure PipelineRunStatusResponse where
  run_id : String
  run_name : String
  status : PipelineRunStatus
  stages : List PipelineStageSnapshot
  outputs : List (String × Value)
  deriving Repr

/-- One serialized item published on a run's event channel
(`RunStateManager._serialize_event` payloads, by their `event` tag). -/
inductive Event where
  | init (run_id : String) (run_name : String) (stages : List PipelineStageSnapshot)
  | run (run_id : String) (status : PipelineRunStatus)
  | stage (run_id : String) (snapshot : PipelineStageSnapshot)
  | complete (run_id : String) (response : PipelineRunResponse)
  | error (run_id : String) (message : String)
  deriving Repr

/-- `run_state.py`: the `RunState` dataclass.  `queue` is the append-only
publication log of the run's `asyncio.Queue`; `none` is the sentinel. -/
structure RunState where
  run_id : String
  run_name : String
  request : PipelineRunRequest
  status : PipelineRunStatus
  stages : List (PipelineStage × PipelineStageSnapshot)
  outputs : List (String × Value)
  queue : List (Option Event)
  deriving Repr

/-- `RunState.stage_snapshots`: the stage snapshots in declared order,
skipping stages absent from the mapping. -/
def RunState.stage_snapshots (s : RunState) : List PipelineStageSnapshot :=
  PIPELINE_STAGE_ORDER.filterMap (fun stage => dictGet s.stages stage)

/-- `run_state.py`: the `RunStateManager`'s mutable state — its `_runs`
map from run identifier to `RunState`. -/
structure RunStateManager where
  runs : List (String × RunState)
  deriving Repr

namespace RunStateManager

/-- `RunStateManager._get_run` / `self._runs.get(run_id)`. -/
def findRun (m : RunStateManager) (run_id : String) : Option RunState :=
  dictGet m.runs run_id

/-- `self._runs[run_id] = state` (also used for in-place mutation of the
state object reached through the map). -/
def setRun (m : RunStateManager) (run_id : String) (st : RunState) : RunStateManager :=
  ⟨dictSet m.runs run_id st⟩

/-- The initial snapshot seeded for every stage by `create_run`. -/
def initialSnapshot (stage : PipelineStage) : PipelineStageSnapshot :=
  ⟨stage, "queued", some "Awaiting execution", none⟩

/-- `RunStateManager.create_run`.  The fresh `uuid4().hex` token is the
explicit `run_id` argument.  The source stores the record and then puts
the `init` event on the record's own queue; the composite effect is the
stored record carrying the `init` event. -/
def create_run (m : RunStateManager) (run_id : String) (run_name : String)
    (request : PipelineRunRequest) : RunStateManager × RunState :=
  let stages := PIPELINE_STAGE_ORDER.map (fun stage => (stage, initialSnapshot stage))
  let st0 : RunState :=
    { run_id := run_id, run_name := run_name, request := request,
      status := .queued, stages := stages, outputs := [], queue := [] }
  let st : RunState :=
    { st0 with queue := [some (.init run_id run_name st0.stage_snapshots)] }
  (m.setRun run_id st, st)

/-- `RunStateManager.mark_run_started`. -/
def mark_run_started (m : RunStateManager) (run_id : String) : RunStateManager :=
  match m.findRun run_id with
  | none => m
  | some st =>
    m.setRun run_id
      { st with status := .running,
                queue := st.queue ++ [some (.run run_id .running)] }

/-- `RunStateManager.update_stage`. -/
def update_stage (m : RunStateManager) (run_id : String) (stage : PipelineStage)
    (status : String) (detail : Option String) (payload : Option Value) :
    RunStateManager :=
  match m.findRun run_id with
  | none => m
  | some st =>
    let snapshot : PipelineStageSnapshot := ⟨stage, status, detail, payload⟩
    m.setRun run_id
      { st with stages := dictSet st.stages stage snapshot,
                queue := st.queue ++ [some (.stage run_id snapshot)] }

/-- `RunStateManager.mark_run_completed`. -/
def mark_run_completed (m : RunStateManager) (run_id : String)
    (response : PipelineRunResponse) : RunStateManager :=
  match m.findRun run_id with
  | none => m
  | some st =>
    m.setRun run_id
      { st with status := .completed, outputs := response.outputs,
                queue := st.queue ++
                  [some (.run run_id .completed), some (.complete run_id response), none] }

/-- `RunStateManager.mark_run_failed`. -/
def mark_run_failed (m : RunStateManager) (run_id : String) (message : String) :
    RunStateManager :=
  match m.findRun run_id with
  | none => m
  | some st =>
    m.setRun run_id
      { st with status := .error,
                queue := st.queue ++
                  [some (.run run_id .error), some (.error run_id message), none] }

/-- `RunStateManager.get_status`. -/
def get_status (m : RunStateManager) (run_id : String) :
    Option PipelineRunStatusResponse :=
  (m.findRun run_id).map fun st =>
    ⟨run_id, st.run_name, st.status, st.stage_snapshots, st.outputs⟩

/-- `RunStateManager.get_queue`. -/
def get_queue (m : RunStateManager) (run_id : String) : Option (List (Option Event)) :=
  (m.findRun run_id).map RunState.queue

end RunStateManager

/-- `core/config.py`: the slice of `Settings` the orchestration core reads. -/
structure Settings where
  outputs_dir : String
  deriving Repr

/-- The path components `pathlib` parses out of a string path: split on
the separator, dropping empty and `.` components. -/
def pathParts (s : String) : List String :=
  (s.splitOn "/").filter (fun c => c ≠ "" && c ≠ ".")

/-- Whether `pathlib` parses the string as anchored at the filesystem root. -/
def isAbsPath (s : String) : Bool :=
  s.startsWith "/"

/-- `PipelineRunner._public_asset_path`: `Path(path).relative_to(outputs_dir)`
succeeds exactly when the anchors agree and the root's components are a
prefix of the path's components, and then yields the remaining components
(`Path(".")` when they are all consumed). -/
def public_asset_path (settings : Settings) (path : Option String) : Option String :=
  match path with
  | none => none
  | some p =>
    if p = "" then none
    else
      let rootParts := pathParts settings.outputs_dir
      if isAbsPath p = isAbsPath settings.outputs_dir && rootParts.isPrefixOf (pathParts p) then
        let rel := (pathParts p).drop rootParts.length
        some ("outputs/" ++ (if rel.isEmpty then "." else String.intercalate "/" rel))
      else none

/-- `PipelineRunner._rewrite_asset_path`: `public_path or value` (a produced
public path always starts with `outputs/`, hence is never falsy). -/
def rewrite_asset_path (settings : Settings) (value : String) : String :=
  (public_asset_path settings (some value)).getD value

mutual

/-- Python `repr` of a `Value` (exact text is irrelevant to every claim;
only that a single string is produced). -/
def pyRepr : Value → String
  | .str s => "\x27" ++ s ++ "\x27"
  | .int n => toString n
  | .float q => toString q
  | .pynone => "None"
  | .list items => "[" ++ String.intercalate ", " (pyReprList items) ++ "]"
  | .tup items => "(" ++ String.intercalate ", " (pyReprList items) ++ ")"
  | .dict entries => "\x7b" ++ String.intercalate ", " (pyReprEntries entries) ++ "\x7d"

def pyReprList : List Value → List String
  | [] => []
  | x :: xs => pyRepr x :: pyReprList xs

def pyReprEntries : List (String × Value) → List String
  | [] => []
  | (k, v) :: xs => ("\x27" ++ k ++ "\x27: " ++ pyRepr v) :: pyReprEntries xs

end

/-- Python `str(value)`: the string itself for strings, `repr`-style text
otherwise. -/
def pyStr : Value → String
  | .str s => s
  | v => pyRepr v

/-- The items Python iteration (`for item in value`) yields from a value
(dict iteration yields keys, string iteration yields characters; iterating
a number or `None` raises and is unreachable on pipeline payloads). -/
def iterValues : Value → List Value
  | .list items => items
  | .tup items => items
  | .dict entries => entries.map (fun e => Value.str e.1)
  | .str s => s.toList.map (fun c => Value.str (String.mk [c]))
  | _ => []

/-- `item.get(key)` on a dict's entry list: the binding, `None` when absent. -/
def vget (entries : List (String × Value)) (k : String) : Value :=
  (dictGet entries k).getD .pynone

/-- The per-item allow-list projection inside `_sanitize_payload`'s
`assets` branch: dict items are reduced to `id` / `local_path` /
`license`, non-dict items are skipped by the `isinstance` guard. -/
def reduce_asset (item : Value) : Option Value :=
  match item with
  | .dict es =>
    some (.dict [("id", vget es "id"), ("local_path", vget es "local_path"),
                 ("license", vget es "license")])
  | _ => none

/-- The per-entry body of `_sanitize_payload`'s dict branch. -/
def sanitize_entry (settings : Settings) (kv : String × Value) : String × Value :=
  if kv.1 = "assets" then
    (kv.1, .list ((iterValues kv.2).filterMap reduce_asset))
  else
    match kv.2 with
    | .str s => (kv.1, .str (rewrite_asset_path settings s))
    | .int n => (kv.1, .int n)
    | .float q => (kv.1, .float q)
    | v => (kv.1, .str (pyStr v))

mutual

/-- `PipelineRunner._sanitize_payload`.  Dataclass payloads arrive here
already in their `asdict` dict form (the source's `is_dataclass` branch). -/
def sanitize_payload (settings : Settings) : Value → Value
  | .dict entries => .dict (entries.map (sanitize_entry settings))
  | .list items => .list (sanitizeItems settings items)
  | .tup items => .list (sanitizeItems settings items)
  | v => v

def sanitizeItems (settings : Settings) : List Value → List Value
  | [] => []
  | x :: xs => sanitize_payload settings x :: sanitizeItems settings xs

end

/-- Python truthiness of a `Value` (`if asset.get("placeholder")`). -/
def truthy : Value → Bool
  | .str s => s ≠ ""
  | .int n => n ≠ 0
  | .float q => q ≠ 0
  | .pynone => false
  | .list items => !items.isEmpty
  | .tup items => !items.isEmpty
  | .dict entries => !entries.isEmpty

/-- `PipelineRunner._format_ingest_detail`. -/
def format_ingest_detail (payload : Value) : String :=
  let assets : List Value :=
    match payload with
    | .dict es => match dictGet es "assets" with
      | some v => iterValues v
      | none => []
    | _ => []
  let count := assets.length
  let placeholder_count :=
    (assets.filter (fun a =>
      match a with
      | .dict es => truthy (vget es "placeholder")
      | _ => false)).length
  if placeholder_count ≠ 0 then
    "Prepared " ++ toString count ++ " clips (" ++ toString placeholder_count ++
      " placeholders generated)."
  else
    "Prepared " ++ toString count ++ " curated clips."

/-- The `detail_builder` closure `_execute` supplies for each stage
(`completed` has no executor and no builder). -/
def stage_detail (stage : PipelineStage) (payload : Value) : String :=
  match stage with
  | .ingest => format_ingest_detail payload
  | .narrative => "Generated master script and dual-platform captions."
  | .voiceover =>
    let v : Value :=
      match payload with
      | .dict es => (dictGet es "status").getD (.str "unknown")
      | _ => .str "unknown"
    "Voiceover status: " ++ pyStr v ++ "."
  | .editing => "Rendered Instagram and TikTok masters."
  | .packaging => "Packaged deliverables into metadata bundle."
  | .analytics => "Computed engagement heuristics."
  | .completed => ""

/-- A family of stage executors: the opaque blocking callables `_execute`
wraps in per-stage lambdas.  Each receives the accumulated results of the
prior stages (the captured `assets_payload`, `narrative_payload`, … in
order) and either returns a result or raises (`.error` carries
`str(exc)`). -/
def Execs : Type :=
  PipelineStage → List Value → Except String Value

/-- The six real stages, in the order of the six `_run_stage` calls laid
out in `PipelineRunner._execute` (the synthetic `completed` marker is not
executed). -/
def EXECUTED_STAGE_ORDER : List PipelineStage :=
  [.ingest, .narrative, .voiceover, .editing, .packaging, .analytics]

open RunStateManager in
/-- `PipelineRunner._run_stage`, iterated over the listed stages: publish
`running`, invoke the executor, then publish `done` with the sanitized
payload and recurse — or publish `error` and re-raise
`RuntimeError(f"Stage ... failed")`, abandoning the remaining stages.
`acc` is the growing list of raw stage results the later closures
capture; `snapshots` is `_execute`'s local snapshot list. -/
def run_stages (settings : Settings) (execs : Execs) :
    RunStateManager → Option String → List Value → List PipelineStageSnapshot →
    List PipelineStage →
    RunStateManager × List PipelineStageSnapshot × Except String (List Value)
  | m, _, acc, snapshots, [] => (m, snapshots, .ok acc)
  | m, run_id, acc, snapshots, stage :: rest =>
    let m1 := match run_id with
      | some rid => m.update_stage rid stage "running" none none
      | none => m
    match execs stage acc with
    | .ok result =>
      let detail := stage_detail stage result
      let payload := sanitize_payload settings result
      let snapshot : PipelineStageSnapshot := ⟨stage, "done", some detail, some payload⟩
      let m2 := match run_id with
        | some rid => m1.update_stage rid stage "done" (some detail) (some payload)
        | none => m1
      run_stages settings execs m2 run_id (acc ++ [result]) (snapshots ++ [snapshot]) rest
    | .error exc =>
      let snapshot : PipelineStageSnapshot := ⟨stage, "error", some exc, none⟩
      let m2 := match run_id with
        | some rid => m1.update_stage rid stage "error" (some exc) none
        | none => m1
      (m2, snapshots ++ [snapshot], .error ("Stage " ++ stage.value ++ " failed"))

/-- `payload.get(k)` as an optional string (the asset-path reads in the
outputs bundle). -/
def asOptString : Option Value → Option String
  | some (.str s) => some s
  | _ => none

/-- Lift an optional public path back into a JSON value (`None` when absent). -/
def optValue : Option String → Value
  | some s => .str s
  | none => .pynone

/-- The outputs bundle `_execute` assembles after the last real stage.
`acc` holds the six raw stage results in execution order; attribute reads
on the narrative dataclass are lookups on its `asdict` form. -/
def build_outputs (settings : Settings) (acc : List Value) : List (String × Value) :=
  let narrative := acc.getD 1 .pynone
  let video := acc.getD 3 .pynone
  let packaging := acc.getD 4 .pynone
  let analytics := acc.getD 5 .pynone
  let nget := fun k => match narrative with
    | .dict es => vget es k
    | _ => .pynone
  let videoPath := fun k => match video with
    | .dict es => optValue (public_asset_path settings (asOptString (dictGet es k)))
    | _ => optValue (public_asset_path settings none)
  [("instagram", .dict
      [("video_path", videoPath "instagram_video"),
       ("caption", nget "instagram_caption"),
       ("hashtags", nget "instagram_hashtags"),
       ("cta", nget "cta")]),
   ("tiktok", .dict
      [("video_path", videoPath "tiktok_video"),
       ("caption", nget "tiktok_caption"),
       ("hashtags", nget "tiktok_hashtags"),
       ("cta", nget "cta")]),
   ("metadata", packaging),
   ("analytics", analytics)]

/-- The synthetic `completed` snapshot `_execute` appends; `now` is the
`datetime.utcnow().isoformat()` text. -/
def completionSnapshot (now : String) : PipelineStageSnapshot :=
  ⟨.completed, "done", some ("Run finished at " ++ now ++ "Z"), none⟩

open RunStateManager in
/-- `PipelineRunner._execute`: drive the six real stages in order, then
synthesize the `completed` snapshot, publish it when tracked, and build
the response — or let a stage failure propagate (`.error`).  The returned
manager carries the events already published before the failure. -/
def execute (settings : Settings) (execs : Execs) (m : RunStateManager)
    (request : PipelineRunRequest) (run_id : Option String) (now : String) :
    RunStateManager × Except String PipelineRunResponse :=
  match run_stages settings execs m run_id [] [] EXECUTED_STAGE_ORDER with
  | (m1, _, .error exc) => (m1, .error exc)
  | (m1, snapshots, .ok acc) =>
    let snap := completionSnapshot now
    let m2 := match run_id with
      | some rid => m1.update_stage rid .completed "done" snap.detail none
      | none => m1
    (m2, .ok ⟨request.run_name, snapshots ++ [snap], build_outputs settings acc⟩)

open RunStateManager in
/-- `PipelineRunner.execute_with_tracking`: mark the run started, execute,
and finalize as `completed`, or catch the single re-raised stage failure
and finalize as `error` with `str(exc)` as the message. -/
def execute_with_tracking (settings : Settings) (execs : Execs)
    (m : RunStateManager) (run_id : String) (request : PipelineRunRequest)
    (now : String) : RunStateManager :=
  let m1 := m.mark_run_started run_id
  match execute settings execs m1 request (some run_id) now with
  | (m2, .ok response) => m2.mark_run_completed run_id response
  | (m2, .error exc) => m2.mark_run_failed run_id exc

/-! ## Association-list (Python dict) lemmas -/

theorem dictGet_cons {α β : Type} [DecidableEq α] (e : α × β) (es : List (α × β)) (k : α) :
    dictGet (e :: es) k = if e.1 = k then some e.2 else dictGet es k := by
  by_cases h : e.1 = k
  · simp [dictGet, List.find?_cons_of_pos, h]
  · simp [dictGet, List.find?_cons_of_neg, h]

theorem dictGet_dictSet_self {α β : Type} [DecidableEq α]
    (l : List (α × β)) (k : α) (v : β) : dictGet (dictSet l k v) k = some v := by
  induction l with
  | nil => simp [dictSet, dictGet_cons, dictGet]
  | cons e es ih =>
    by_cases h : e.1 = k
    · simp [dictSet, h, dictGet_cons]
    · simp [dictSet, h, dictGet_cons, ih]

theorem dictGet_dictSet_ne {α β : Type} [DecidableEq α]
    (l : List (α × β)) (k k' : α) (v : β) (h : k' ≠ k) :
    dictGet (dictSet l k v) k' = dictGet l k' := by
  induction l with
  | nil => simp [dictSet, dictGet_cons, dictGet, Ne.symm h]
  | cons e es ih =>
    by_cases he : e.1 = k
    · simp [dictSet, dictGet_cons, he, Ne.symm h]
    · simp [dictSet, he, dictGet_cons, ih]

theorem dictSet_dictSet {α β : Type} [DecidableEq α]
    (l : List (α × β)) (k : α) (v w : β) :
    dictSet (dictSet l k v) k w = dictSet l k w := by
  induction l with
  | nil => simp [dictSet]
  | cons e es ih =>
    by_cases h : e.1 = k
    · simp [dictSet, h]
    · simp [dictSet, h, ih]

theorem dictSet_eq_of_get {α β : Type} [DecidableEq α]
    {l : List (α × β)} {k : α} {v : β} (h : dictGet l k = some v) :
    dictSet l k v = l := by
  induction l with
  | nil => simp [dictGet] at h
  | cons e es ih =>
    rw [dictGet_cons] at h
    cases e with
    | mk a b =>
      by_cases he : a = k
      · subst he
        simp only [if_pos rfl] at h
        obtain rfl : b = v := Option.some.inj h
        simp [dictSet]
      · simp only [if_neg he] at h
        simp [dictSet, he, ih h]

theorem dictSet_map_fst_of_mem {α β : Type} [DecidableEq α]
    {l : List (α × β)} {k : α} (v : β) (h : k ∈ l.map Prod.fst) :
    (dictSet l k v).map Prod.fst = l.map Prod.fst := by
  induction l with
  | nil => simp at h
  | cons e es ih =>
    by_cases he : e.1 = k
    · simp [dictSet, he]
    · simp only [List.map_cons, List.mem_cons] at h
      rcases h with h | h
      · exact absurd h.symm he
      · simp [dictSet, he, ih h]

theorem dictGet_isSome_of_mem {α β : Type} [DecidableEq α]
    {l : List (α × β)} {k : α} (h : k ∈ l.map Prod.fst) :
    (dictGet l k).isSome := by
  induction l with
  | nil => simp at h
  | cons e es ih =>
    rw [dictGet_cons]
    by_cases he : e.1 = k
    · simp [he]
    · simp only [List.map_cons, List.mem_cons] at h
      rcases h with h | h
      · exact absurd h.symm he
      · simp [he, ih h]

/-! ## Registry frame lemmas -/

/-- The run status a status query would report. -/
def statusOf (m : RunStateManager) (rid : String) : Option PipelineRunStatus :=
  (m.findRun rid).map RunState.status

/-- The outputs bundle a status query would report. -/
def outputsOf (m : RunStateManager) (rid : String) : Option (List (String × Value)) :=
  (m.findRun rid).map RunState.outputs

namespace RunStateManager

theorem findRun_setRun_self (m : RunStateManager) (rid : String) (st : RunState) :
    (m.setRun rid st).findRun rid = some st := by
  simp [findRun, setRun, dictGet_dictSet_self]

theorem findRun_setRun_ne (m : RunStateManager) (rid r : String) (st : RunState)
    (h : r ≠ rid) : (m.setRun rid st).findRun r = m.findRun r := by
  simp [findRun, setRun, dictGet_dictSet_ne _ _ _ _ h]

theorem setRun_setRun (m : RunStateManager) (rid : String) (a b : RunState) :
    (m.setRun rid a).setRun rid b = m.setRun rid b := by
  simp [setRun, dictSet_dictSet]

theorem update_stage_eq_setRun {m : RunStateManager} {rid : String} {st : RunState}
    (stage : PipelineStage) (status : String) (detail : Option String)
    (payload : Option Value) (h : m.findRun rid = some st) :
    m.update_stage rid stage status detail payload =
      m.setRun rid
        { st with stages := dictSet st.stages stage ⟨stage, status, detail, payload⟩,
                  queue := st.queue ++ [some (.stage rid ⟨stage, status, detail, payload⟩)] } := by
  rw [update_stage, h]

theorem update_stage_statusOf (m : RunStateManager) (rid : String)
    (stage : PipelineStage) (status : String) (detail : Option String)
    (payload : Option Value) (r : String) :
    statusOf (m.update_stage rid stage status detail payload) r = statusOf m r := by
  rw [update_stage]
  cases h : m.findRun rid with
  | none => rfl
  | some st =>
    by_cases hr : r = rid
    · subst hr
      simp [statusOf, findRun_setRun_self, h]
    · simp [statusOf, findRun_setRun_ne _ _ _ _ hr]

theorem update_stage_outputsOf (m : RunStateManager) (rid : String)
    (stage : PipelineStage) (status : String) (detail : Option String)
    (payload : Option Value) (r : String) :
    outputsOf (m.update_stage rid stage status detail payload) r = outputsOf m r := by
  rw [update_stage]
  cases h : m.findRun rid with
  | none => rfl
  | some st =>
    by_cases hr : r = rid
    · subst hr
      simp [outputsOf, findRun_setRun_self, h]
    · simp [outputsOf, findRun_setRun_ne _ _ _ _ hr]

theorem update_stage_isSome (m : RunStateManager) (rid : String)
    (stage : PipelineStage) (status : String) (detail : Option String)
    (payload : Option Value) (r : String) :
    ((m.update_stage rid stage status detail payload).findRun r).isSome =
      (m.findRun r).isSome := by
  have := update_stage_statusOf m rid stage status detail payload r
  simp only [statusOf] at this
  cases h1 : (m.update_stage rid stage status detail payload).findRun r <;>
    cases h2 : m.findRun r <;> simp [h1, h2] at this ⊢

end RunStateManager

/-! ## Outcome traces: a declarative view of one tracked execution -/

/-- The per-stage outcomes an executor family produces along the fixed
sequence, stopping at (and including) the first failure — exactly the
executor invocations `_execute` performs. -/
def stage_outcomes (execs : Execs) :
    List Value → List PipelineStage → List (PipelineStage × Except String Value)
  | _, [] => []
  | acc, stage :: rest =>
    match execs stage acc with
    | .ok v => (stage, .ok v) :: stage_outcomes execs (acc ++ [v]) rest
    | .error e => [(stage, .error e)]

/-- The snapshot `_run_stage` publishes when it starts a stage. -/
def runningSnapshot (stage : PipelineStage) : PipelineStageSnapshot :=
  ⟨stage, "running", none, none⟩

/-- The snapshot `_run_stage` records for a finished stage: `done` with
sanitized payload, or `error` with the failure message as detail. -/
def snapshotOfOutcome (settings : Settings) :
    PipelineStage × Except String Value → PipelineStageSnapshot
  | (stage, .ok v) =>
    ⟨stage, "done", some (stage_detail stage v), some (sanitize_payload settings v)⟩
  | (stage, .error e) => ⟨stage, "error", some e, none⟩

/-- The `stage` events published for a list of outcomes: `running` then
`done`/`error` per executed stage, in order. -/
def stage_events (settings : Settings) (rid : String) :
    List (PipelineStage × Except String Value) → List (Option Event)
  | [] => []
  | o :: rest =>
    some (.stage rid (runningSnapshot o.1)) ::
      some (.stage rid (snapshotOfOutcome settings o)) ::
        stage_events settings rid rest

/-- The net effect on the stage mapping of the pairs of `update_stage`
calls a list of outcomes triggers. -/
def applyOutcomes (settings : Settings) :
    List (PipelineStage × PipelineStageSnapshot) →
    List (PipelineStage × Except String Value) →
    List (PipelineStage × PipelineStageSnapshot)
  | d, [] => d
  | d, o :: rest =>
    applyOutcomes settings
      (dictSet (dictSet d o.1 (runningSnapshot o.1)) o.1 (snapshotOfOutcome settings o)) rest

/-- The value/exception `_execute`'s stage loop finishes with. -/
def stages_result (execs : Execs) :
    List Value → List PipelineStage → Except String (List Value)
  | acc, [] => .ok acc
  | acc, stage :: rest =>
    match execs stage acc with
    | .ok v => stages_result execs (acc ++ [v]) rest
    | .error _ => .error ("Stage " ++ stage.value ++ " failed")

open RunStateManager in
/-- Master characterization of the tracked stage loop: starting from any
registry holding the run, `run_stages` replaces the run's record with the
outcome-determined stages/queue, returns the outcome snapshots, and
finishes with the outcome-determined result. -/
theorem run_stages_char (settings : Settings) (execs : Execs) (rid : String) :
    ∀ (L : List PipelineStage) (m : RunStateManager) (st : RunState)
      (acc : List Value) (snaps : List PipelineStageSnapshot),
      m.findRun rid = some st →
      run_stages settings execs m (some rid) acc snaps L =
        (m.setRun rid
          { st with
            stages := applyOutcomes settings st.stages (stage_outcomes execs acc L),
            queue := st.queue ++ stage_events settings rid (stage_outcomes execs acc L) },
         snaps ++ (stage_outcomes execs acc L).map (snapshotOfOutcome settings),
         stages_result execs acc L) := by
  intro L
  induction L with
  | nil =>
    intro m st acc snaps h
    simp only [run_stages, stage_outcomes, applyOutcomes, stage_events, stages_result,
      List.map_nil, List.append_nil]
    cases st with
    | mk i n r s g o q =>
      cases m with
      | mk runs =>
        simp only [setRun]
        rw [dictSet_eq_of_get]
        exact h
  | cons stage rest ih =>
    intro m st acc snaps h
    rw [run_stages]
    cases hex : execs stage acc with
    | ok v =>
      dsimp only
      rw [update_stage_eq_setRun stage "running" none none h]
      rw [update_stage_eq_setRun stage "done"
        (some (stage_detail stage v)) (some (sanitize_payload settings v))
        (findRun_setRun_self m rid _), setRun_setRun]
      rw [ih (m.setRun rid _) _ (acc ++ [v]) _ (findRun_setRun_self m rid _)]
      rw [setRun_setRun]
      simp only [stage_outcomes, hex, applyOutcomes, stage_events, stages_result,
        runningSnapshot, snapshotOfOutcome, List.map_cons, List.append_assoc,
        List.cons_append, List.nil_append, List.singleton_append]
    | error e =>
      dsimp only
      rw [update_stage_eq_setRun stage "running" none none h]
      rw [update_stage_eq_setRun stage "error" (some e) none
        (findRun_setRun_self m rid _), setRun_setRun]
      simp only [stage_outcomes, hex, applyOutcomes, stage_events, stages_result,
        runningSnapshot, snapshotOfOutcome, List.map_cons, List.map_nil,
        List.append_assoc, List.cons_append, List.nil_append, List.singleton_append]

/-! ## Frame corollaries for the stage loop and terminal transitions -/

open RunStateManager in
theorem run_stages_statusOf (settings : Settings) (execs : Execs) (rid : String) :
    ∀ (L : List PipelineStage) (m : RunStateManager) (acc : List Value)
      (snaps : List PipelineStageSnapshot) (r : String),
      statusOf (run_stages settings execs m (some rid) acc snaps L).1 r = statusOf m r := by
  intro L
  induction L with
  | nil => intro m acc snaps r; rfl
  | cons stage rest ih =>
    intro m acc snaps r
    rw [run_stages]
    cases hex : execs stage acc with
    | ok v =>
      dsimp only
      rw [ih, update_stage_statusOf, update_stage_statusOf]
    | error e =>
      dsimp only
      rw [update_stage_statusOf, update_stage_statusOf]

open RunStateManager in
theorem run_stages_outputsOf (settings : Settings) (execs : Execs) (rid : String) :
    ∀ (L : List PipelineStage) (m : RunStateManager) (acc : List Value)
      (snaps : List PipelineStageSnapshot) (r : String),
      outputsOf (run_stages settings execs m (some rid) acc snaps L).1 r = outputsOf m r := by
  intro L
  induction L with
  | nil => intro m acc snaps r; rfl
  | cons stage rest ih =>
    intro m acc snaps r
    rw [run_stages]
    cases hex : execs stage acc with
    | ok v =>
      dsimp only
      rw [ih, update_stage_outputsOf, update_stage_outputsOf]
    | error e =>
      dsimp only
      rw [update_stage_outputsOf, update_stage_outputsOf]

namespace RunStateManager

theorem mark_run_started_statusOf_self {m : RunStateManager} {rid : String}
    {st : RunState} (h : m.findRun rid = some st) :
    statusOf (m.mark_run_started rid) rid = some .running := by
  simp [mark_run_started, h, statusOf, findRun_setRun_self]

theorem mark_run_started_outputsOf (m : RunStateManager) (rid r : String) :
    outputsOf (m.mark_run_started rid) r = outputsOf m r := by
  rw [mark_run_started]
  cases h : m.findRun rid with
  | none => rfl
  | some st =>
    by_cases hr : r = rid
    · subst hr; simp [outputsOf, findRun_setRun_self, h]
    · simp [outputsOf, findRun_setRun_ne _ _ _ _ hr]

theorem mark_run_started_findRun_self {m : RunStateManager} {rid : String}
    {st : RunState} (h : m.findRun rid = some st) :
    (m.mark_run_started rid).findRun rid =
      some { st with status := .running,
                     queue := st.queue ++ [some (.run rid .running)] } := by
  simp [mark_run_started, h, findRun_setRun_self]

theorem mark_run_completed_findRun_self {m : RunStateManager} {rid : String}
    {st : RunState} (response : PipelineRunResponse) (h : m.findRun rid = some st) :
    (m.mark_run_completed rid response).findRun rid =
      some { st with status := .completed, outputs := response.outputs,
                     queue := st.queue ++
                       [some (.run rid .completed), some (.complete rid response), none] } := by
  simp [mark_run_completed, h, findRun_setRun_self]

theorem mark_run_failed_findRun_self {m : RunStateManager} {rid : String}
    {st : RunState} (message : String) (h : m.findRun rid = some st) :
    (m.mark_run_failed rid message).findRun rid =
      some { st with status := .error,
                     queue := st.queue ++
                       [some (.run rid .error), some (.error rid message), none] } := by
  simp [mark_run_failed, h, findRun_setRun_self]

theorem create_run_findRun_self (m : RunStateManager) (rid name : String)
    (request : PipelineRunRequest) :
    ((m.create_run rid name request).1).findRun rid = some (m.create_run rid name request).2 := by
  simp [create_run, findRun_setRun_self]

end RunStateManager

/-! ## Registry-state traces of one tracked execution -/

open RunStateManager in
/-- The successive registry states produced by the `update_stage` calls of
the tracked stage loop, in order (mirrors `run_stages` step for step). -/
def run_stages_trace (settings : Settings) (execs : Execs) :
    RunStateManager → String → List Value → List PipelineStage → List RunStateManager
  | _, _, _, [] => []
  | m, rid, acc, stage :: rest =>
    let m1 := m.update_stage rid stage "running" none none
    match execs stage acc with
    | .ok result =>
      let m2 := m1.update_stage rid stage "done"
        (some (stage_detail stage result)) (some (sanitize_payload settings result))
      m1 :: m2 :: run_stages_trace settings execs m2 rid (acc ++ [result]) rest
    | .error exc => [m1, m1.update_stage rid stage "error" (some exc) none]

open RunStateManager in
/-- All registry states of one tracked execution (`execute_with_tracking`
applied after `create_run`), after each registry operation in program
order; the last element is the final registry. -/
def execute_with_tracking_trace (settings : Settings) (execs : Execs)
    (m : RunStateManager) (rid : String) (request : PipelineRunRequest)
    (now : String) : List RunStateManager :=
  let m1 := m.mark_run_started rid
  let str := run_stages_trace settings execs m1 rid [] EXECUTED_STAGE_ORDER
  match execute settings execs m1 request (some rid) now with
  | (m2, .ok response) => m1 :: str ++ [m2, m2.mark_run_completed rid response]
  | (m2, .error exc) => m1 :: str ++ [m2.mark_run_failed rid exc]

open RunStateManager in
theorem run_stages_trace_statusOf (settings : Settings) (execs : Execs) (rid : String) :
    ∀ (L : List PipelineStage) (m : RunStateManager) (acc : List Value)
      (x : RunStateManager), x ∈ run_stages_trace settings execs m rid acc L →
      ∀ r, statusOf x r = statusOf m r := by
  intro L
  induction L with
  | nil => intro m acc x hx; simp [run_stages_trace] at hx
  | cons stage rest ih =>
    intro m acc x hx r
    rw [run_stages_trace] at hx
    cases hex : execs stage acc with
    | ok v =>
      rw [hex] at hx
      simp only [List.mem_cons] at hx
      rcases hx with rfl | hx
      · rw [update_stage_statusOf]
      · rcases hx with rfl | hx
        · rw [update_stage_statusOf, update_stage_statusOf]
        · rw [ih _ _ _ hx r, update_stage_statusOf, update_stage_statusOf]
    | error e =>
      rw [hex] at hx
      simp only [List.mem_cons, List.not_mem_nil, or_false] at hx
      rcases hx with rfl | rfl
      · rw [update_stage_statusOf]
      · rw [update_stage_statusOf, update_stage_statusOf]

open RunStateManager in
theorem run_stages_trace_outputsOf (settings : Settings) (execs : Execs) (rid : String) :
    ∀ (L : List PipelineStage) (m : RunStateManager) (acc : List Value)
      (x : RunStateManager), x ∈ run_stages_trace settings execs m rid acc L →
      ∀ r, outputsOf x r = outputsOf m r := by
  intro L
  induction L with
  | nil => intro m acc x hx; simp [run_stages_trace] at hx
  | cons stage rest ih =>
    intro m acc x hx r
    rw [run_stages_trace] at hx
    cases hex : execs stage acc with
    | ok v =>
      rw [hex] at hx
      simp only [List.mem_cons] at hx
      rcases hx with rfl | hx
      · rw [update_stage_outputsOf]
      · rcases hx with rfl | hx
        · rw [update_stage_outputsOf, update_stage_outputsOf]
        · rw [ih _ _ _ hx r, update_stage_outputsOf, update_stage_outputsOf]
    | error e =>
      rw [hex] at hx
      simp only [List.mem_cons, List.not_mem_nil, or_false] at hx
      rcases hx with rfl | rfl
      · rw [update_stage_outputsOf]
      · rw [update_stage_outputsOf, update_stage_outputsOf]

/-! ## Concrete demo fixtures used by witnesses -/

/-- A concrete run request. -/
def demoRequest : PipelineRunRequest :=
  ⟨"demo", [.instagram, .tiktok], ["k1", "k2"], none⟩

/-- A registry holding exactly one freshly created run `run1`. -/
def demoManager : RunStateManager :=
  ((⟨[]⟩ : RunStateManager).create_run "run1" "demo" demoRequest).1

/-- The record `create_run` returns for `run1`. -/
def demoRunState : RunState :=
  ((⟨[]⟩ : RunStateManager).create_run "run1" "demo" demoRequest).2

/-- The status response for `run1` immediately after creation. -/
def demoStatusResponse : PipelineRunStatusResponse :=
  ⟨"run1", "demo", .queued, PIPELINE_STAGE_ORDER.map RunStateManager.initialSnapshot, []⟩

/-! ## C7: unknown run ids -/

/-- C7: for every `run_id` not present in the registry, `get_status`
returns a not-found result (`none`) rather than raising, and
`update_stage` is a no-op: it returns the registry unchanged, so no run
state changes and no event is published. -/
theorem unknown_run_is_noop (m : RunStateManager) (rid : String)
    (stage : PipelineStage) (status : String) (detail : Option String)
    (payload : Option Value) (h : m.findRun rid = none) :
    m.get_status rid = none ∧ m.update_stage rid stage status detail payload = m := by
  constructor
  · simp [RunStateManager.get_status, h]
  · rw [RunStateManager.update_stage, h]

/-- Witness for C7 at the empty registry and run id `missing`. -/
theorem unknown_run_is_noop_witness :
    (⟨[]⟩ : RunStateManager).get_status "missing" = none ∧
    (⟨[]⟩ : RunStateManager).update_stage "missing" .ingest "done" none none =
      (⟨[]⟩ : RunStateManager) :=
  unknown_run_is_noop ⟨[]⟩ "missing" .ingest "done" none none rfl

/-! ## C9: status query idempotence -/

/-- C9: two `get_status` calls for the same existing run with no
intervening update return identical snapshots — same status, same ordered
stage list, same outputs. -/
theorem get_status_idempotent (m : RunStateManager) (rid : String)
    (r1 r2 : PipelineRunStatusResponse)
    (h1 : m.get_status rid = some r1) (h2 : m.get_status rid = some r2) :
    r1.status = r2.status ∧ r1.stages = r2.stages ∧ r1.outputs = r2.outputs := by
  have h := Option.some.inj (h1.symm.trans h2)
  rw [h]
  exact ⟨rfl, rfl, rfl⟩

/-- Witness for C9 on the freshly created demo run. -/
theorem get_status_idempotent_witness :
    demoStatusResponse.status = demoStatusResponse.status ∧
    demoStatusResponse.stages = demoStatusResponse.stages ∧
    demoStatusResponse.outputs = demoStatusResponse.outputs :=
  get_status_idempotent demoManager "run1" demoStatusResponse demoStatusResponse rfl rfl

/-! ## C10: update_stage frame property -/

/-- C10: on a known run, `update_stage` replaces only the snapshot of the
addressed stage; every other stage's snapshot, the run's status, outputs,
run_name, run_id and request, and every other run, are unchanged. -/
theorem update_stage_frame (m : RunStateManager) (rid : String) (st : RunState)
    (stage : PipelineStage) (status : String) (detail : Option String)
    (payload : Option Value) (h : m.findRun rid = some st) :
    ∃ st', (m.update_stage rid stage status detail payload).findRun rid = some st' ∧
      dictGet st'.stages stage = some ⟨stage, status, detail, payload⟩ ∧
      (∀ s : PipelineStage, s ≠ stage → dictGet st'.stages s = dictGet st.stages s) ∧
      st'.status = st.status ∧ st'.outputs = st.outputs ∧
      st'.run_name = st.run_name ∧ st'.run_id = st.run_id ∧ st'.request = st.request ∧
      (∀ r : String, r ≠ rid →
        (m.update_stage rid stage status detail payload).findRun r = m.findRun r) := by
  rw [RunStateManager.update_stage_eq_setRun stage status detail payload h]
  refine ⟨_, RunStateManager.findRun_setRun_self m rid _, dictGet_dictSet_self _ _ _,
    ?_, rfl, rfl, rfl, rfl, rfl, ?_⟩
  · intro s hs
    exact dictGet_dictSet_ne _ _ _ _ hs
  · intro r hr
    exact RunStateManager.findRun_setRun_ne m rid r _ hr

/-- Witness for C10: updating the narrative stage of the demo run. -/
theorem update_stage_frame_witness :
    ∃ st', (demoManager.update_stage "run1" .narrative "running" none none).findRun "run1" =
        some st' ∧
      dictGet st'.stages .narrative = some ⟨.narrative, "running", none, none⟩ ∧
      (∀ s : PipelineStage, s ≠ .narrative →
        dictGet st'.stages s = dictGet demoRunState.stages s) ∧
      st'.status = demoRunState.status ∧ st'.outputs = demoRunState.outputs ∧
      st'.run_name = demoRunState.run_name ∧ st'.run_id = demoRunState.run_id ∧
      st'.request = demoRunState.request ∧
      (∀ r : String, r ≠ "run1" →
        (demoManager.update_stage "run1" .narrative "running" none none).findRun r =
          demoManager.findRun r) :=
  update_stage_frame demoManager "run1" demoRunState .narrative "running" none none rfl

/-! ## C3: the stage mapping is always complete -/

/-- Every declared stage id. -/
theorem mem_PIPELINE_STAGE_ORDER (s : PipelineStage) : s ∈ PIPELINE_STAGE_ORDER := by
  cases s <;> simp [PIPELINE_STAGE_ORDER]

/-- Well-formedness of a run's stage mapping: exactly the declared keys,
in declared order, each bound to a snapshot tagged with its own stage. -/
def StagesWF (st : RunState) : Prop :=
  st.stages.map Prod.fst = PIPELINE_STAGE_ORDER ∧
  ∀ s snap, dictGet st.stages s = some snap → snap.stage = s

/-- One requested `update_stage` call, with its addressed run. -/
structure StageUpdate where
  run_id : String
  stage : PipelineStage
  status : String
  detail : Option String
  payload : Option Value

/-- Fold a sequence of `update_stage` calls over the registry. -/
def applyUpdates (m : RunStateManager) : List StageUpdate → RunStateManager
  | [] => m
  | u :: us => applyUpdates (m.update_stage u.run_id u.stage u.status u.detail u.payload) us

theorem dictGet_map_pair {α β : Type} [DecidableEq α] (f : α → β) :
    ∀ (l : List α) (k : α), k ∈ l → dictGet (l.map fun s => (s, f s)) k = some (f k) := by
  intro l
  induction l with
  | nil => intro k hk; simp at hk
  | cons a as ih =>
    intro k hk
    rw [List.map_cons, dictGet_cons]
    by_cases ha : a = k
    · simp [ha]
    · simp only [List.mem_cons] at hk
      rcases hk with rfl | hk
      · exact absurd rfl ha
      · simp [ha, ih k hk]

theorem create_run_stagesWF (m : RunStateManager) (rid name : String)
    (request : PipelineRunRequest) : StagesWF (m.create_run rid name request).2 := by
  constructor
  · rfl
  · intro s snap h
    simp only [RunStateManager.create_run] at h
    rw [dictGet_map_pair _ _ _ (mem_PIPELINE_STAGE_ORDER s)] at h
    obtain rfl := Option.some.inj h
    rfl

theorem update_stage_stagesWF {st : RunState} (hwf : StagesWF st)
    (stage : PipelineStage) (status : String) (detail : Option String)
    (payload : Option Value) :
    StagesWF { st with stages := dictSet st.stages stage ⟨stage, status, detail, payload⟩,
                       queue := st.queue ++ [some (.stage st.run_id
                         ⟨stage, status, detail, payload⟩)] } := by
  obtain ⟨hkeys, htag⟩ := hwf
  constructor
  · simp only []
    rw [dictSet_map_fst_of_mem _ (by rw [hkeys]; exact mem_PIPELINE_STAGE_ORDER stage)]
    exact hkeys
  · intro s snap h
    simp only [] at h
    by_cases hs : s = stage
    · subst hs
      rw [dictGet_dictSet_self] at h
      obtain rfl := Option.some.inj h
      rfl
    · rw [dictGet_dictSet_ne _ _ _ _ hs] at h
      exact htag s snap h

/-- The invariant carried through arbitrary update sequences: the tracked
run is present and its stage mapping is well-formed. -/
def RunWF (m : RunStateManager) (rid : String) : Prop :=
  ∃ st, m.findRun rid = some st ∧ StagesWF st

theorem update_stage_runWF {m : RunStateManager} {rid : String}
    (h : RunWF m rid) (rid' : String) (stage : PipelineStage) (status : String)
    (detail : Option String) (payload : Option Value) :
    RunWF (m.update_stage rid' stage status detail payload) rid := by
  obtain ⟨st, hfind, hwf⟩ := h
  rw [RunStateManager.update_stage]
  cases hfind' : m.findRun rid' with
  | none => exact ⟨st, hfind, hwf⟩
  | some st' =>
    by_cases hr : rid = rid'
    · subst hr
      obtain rfl : st = st' := Option.some.inj (hfind.symm.trans hfind')
      refine ⟨_, RunStateManager.findRun_setRun_self m rid _, ?_⟩
      have := update_stage_stagesWF hwf stage status detail payload
      exact this
    · exact ⟨st, by rw [RunStateManager.findRun_setRun_ne m rid' rid _ hr]; exact hfind, hwf⟩

theorem applyUpdates_runWF : ∀ (us : List StageUpdate) (m : RunStateManager)
    (rid : String), RunWF m rid → RunWF (applyUpdates m us) rid := by
  intro us
  induction us with
  | nil => intro m rid h; exact h
  | cons u rest ih =>
    intro m rid h
    exact ih _ rid (update_stage_runWF h u.run_id u.stage u.status u.detail u.payload)

theorem filterMap_dictGet_of_wf {stages : List (PipelineStage × PipelineStageSnapshot)}
    (htag : ∀ s snap, dictGet stages s = some snap → snap.stage = s)
    (hsome : ∀ s : PipelineStage, (dictGet stages s).isSome) :
    ∀ (l : List PipelineStage),
      (l.filterMap (fun s => dictGet stages s)).map PipelineStageSnapshot.stage = l := by
  intro l
  induction l with
  | nil => simp
  | cons a as ih =>
    cases hg : dictGet stages a with
    | none => exact absurd hg (by have := hsome a; simp [hg] at this)
    | some snap =>
      simp only [List.filterMap_cons, hg, List.map_cons, ih, List.cons.injEq, and_true]
      exact htag a snap hg

/-- C3: from the moment `create_run` returns, and after any sequence of
stage updates, the run's stage mapping binds every declared StageId
exactly once (its key list is exactly the declared order), so the ordered
stage list a status query returns always has one snapshot per declared
StageId, in declared order — including immediately after creation. -/
theorem stage_list_always_complete (m : RunStateManager) (rid name : String)
    (request : PipelineRunRequest) (us : List StageUpdate) :
    ∃ st resp,
      (applyUpdates (m.create_run rid name request).1 us).findRun rid = some st ∧
      st.stages.map Prod.fst = PIPELINE_STAGE_ORDER ∧
      (applyUpdates (m.create_run rid name request).1 us).get_status rid = some resp ∧
      resp.stages.length = PIPELINE_STAGE_ORDER.length ∧
      resp.stages.map PipelineStageSnapshot.stage = PIPELINE_STAGE_ORDER := by
  have h0 : RunWF (m.create_run rid name request).1 rid :=
    ⟨_, RunStateManager.create_run_findRun_self m rid name request,
      create_run_stagesWF m rid name request⟩
  obtain ⟨st, hfind, hkeys, htag⟩ := applyUpdates_runWF us _ rid h0
  have hsome : ∀ s : PipelineStage, (dictGet st.stages s).isSome := fun s =>
    dictGet_isSome_of_mem (by rw [hkeys]; exact mem_PIPELINE_STAGE_ORDER s)
  have hmap := filterMap_dictGet_of_wf htag hsome PIPELINE_STAGE_ORDER
  refine ⟨st, ⟨rid, st.run_name, st.status, st.stage_snapshots, st.outputs⟩,
    hfind, hkeys, ?_, ?_, ?_⟩
  · simp [RunStateManager.get_status, hfind]
  · have h1 := congrArg List.length hmap
    rw [List.length_map] at h1
    simpa [RunState.stage_snapshots] using h1
  · exact hmap

/-! ## C4: run status monotonicity -/

/-- Rank of a run status along `queued → running → {completed | error}`. -/
def statusRank : PipelineRunStatus → Nat
  | .queued => 0
  | .running => 1
  | .completed => 2
  | .error => 2

/-- The monotonicity order on run statuses. -/
def statusLe (a b : PipelineRunStatus) : Prop :=
  statusRank a ≤ statusRank b

theorem execute_statusOf (settings : Settings) (execs : Execs) (m : RunStateManager)
    (request : PipelineRunRequest) (rid : String) (now : String) (r : String) :
    statusOf (execute settings execs m request (some rid) now).1 r = statusOf m r := by
  have h := run_stages_statusOf settings execs rid EXECUTED_STAGE_ORDER m [] [] r
  rw [execute]
  rcases hrs : run_stages settings execs m (some rid) [] [] EXECUTED_STAGE_ORDER with
    ⟨m1, snaps, res⟩
  rw [hrs] at h
  cases res with
  | error e => exact h
  | ok acc =>
    dsimp only
    rw [RunStateManager.update_stage_statusOf]
    exact h

theorem execute_outputsOf (settings : Settings) (execs : Execs) (m : RunStateManager)
    (request : PipelineRunRequest) (rid : String) (now : String) (r : String) :
    outputsOf (execute settings execs m request (some rid) now).1 r = outputsOf m r := by
  have h := run_stages_outputsOf settings execs rid EXECUTED_STAGE_ORDER m [] [] r
  rw [execute]
  rcases hrs : run_stages settings execs m (some rid) [] [] EXECUTED_STAGE_ORDER with
    ⟨m1, snaps, res⟩
  rw [hrs] at h
  cases res with
  | error e => exact h
  | ok acc =>
    dsimp only
    rw [RunStateManager.update_stage_outputsOf]
    exact h

theorem pairwise_of_all_running (mids : List PipelineRunStatus)
    (hm : ∀ x ∈ mids, x = .running) : List.Pairwise statusLe mids := by
  induction mids with
  | nil => exact List.Pairwise.nil
  | cons a l ih =>
    refine List.Pairwise.cons ?_ (ih fun x hx => hm x (List.mem_cons_of_mem a hx))
    intro b hb
    rw [hm a (List.mem_cons_self a l), hm b (List.mem_cons_of_mem a hb)]
    exact Nat.le_refl _

theorem pairwise_statusLe_shape (mids : List PipelineRunStatus) (t : PipelineRunStatus)
    (hm : ∀ x ∈ mids, x = .running) (ht : 1 ≤ statusRank t) :
    List.Pairwise statusLe (.queued :: (mids ++ [t])) := by
  refine List.Pairwise.cons ?_ ?_
  · intro b _
    show statusRank .queued ≤ statusRank b
    exact Nat.zero_le _
  · rw [List.pairwise_append]
    refine ⟨pairwise_of_all_running mids hm, by simp, ?_⟩
    intro a ha b hb
    rw [List.mem_singleton] at hb
    subst hb
    rw [hm a ha]
    exact ht

/-- C4: along one tracked execution (run creation followed by
`execute_with_tracking`), the run is present at every registry state and
the statuses observed at the successive states are pairwise monotone in
`queued → running → {completed | error}` order: the status never
regresses, and once `completed` or `error` is observed no later state
shows `queued` or `running`. -/
theorem run_status_monotonic (settings : Settings) (execs : Execs)
    (m : RunStateManager) (rid name : String) (request : PipelineRunRequest)
    (now : String) :
    (∀ x ∈ (m.create_run rid name request).1 ::
        execute_with_tracking_trace settings execs (m.create_run rid name request).1
          rid request now,
      (statusOf x rid).isSome) ∧
    List.Pairwise statusLe
      (((m.create_run rid name request).1 ::
        execute_with_tracking_trace settings execs (m.create_run rid name request).1
          rid request now).map
        (fun x => (statusOf x rid).getD .queued)) := by
  have hcf := RunStateManager.create_run_findRun_self m rid name request
  have h0 : statusOf (m.create_run rid name request).1 rid = some .queued := by
    rw [statusOf, hcf]; rfl
  have h1 : statusOf ((m.create_run rid name request).1.mark_run_started rid) rid =
      some .running :=
    RunStateManager.mark_run_started_statusOf_self hcf
  have hstr : ∀ x ∈ run_stages_trace settings execs
      ((m.create_run rid name request).1.mark_run_started rid) rid [] EXECUTED_STAGE_ORDER,
      statusOf x rid = some .running := by
    intro x hx
    rw [run_stages_trace_statusOf settings execs rid _ _ _ x hx rid, h1]
  rw [execute_with_tracking_trace]
  rcases hex : execute settings execs
      ((m.create_run rid name request).1.mark_run_started rid) request (some rid) now with
    ⟨m2, res⟩
  have h2 : statusOf m2 rid = some .running := by
    have h := execute_statusOf settings execs
      ((m.create_run rid name request).1.mark_run_started rid) request rid now rid
    rw [hex] at h
    simpa [h1] using h
  obtain ⟨st2, hst2⟩ : ∃ st2, m2.findRun rid = some st2 := by
    cases hf : m2.findRun rid with
    | none => rw [statusOf, hf] at h2; simp at h2
    | some st2 => exact ⟨st2, rfl⟩
  cases res with
  | ok response =>
    dsimp only
    have h3 : statusOf (m2.mark_run_completed rid response) rid = some .completed := by
      rw [statusOf, RunStateManager.mark_run_completed_findRun_self response hst2]; rfl
    constructor
    · intro x hx
      rw [List.mem_cons] at hx
      rcases hx with rfl | hx
      · simp [h0]
      rw [List.mem_append] at hx
      rcases hx with hx | hx
      · rw [List.mem_cons] at hx
        rcases hx with rfl | hx
        · simp [h1]
        · simp [hstr x hx]
      rw [List.mem_cons] at hx
      rcases hx with rfl | hx
      · simp [h2]
      rw [List.mem_singleton] at hx
      subst hx
      simp [h3]
    · simp only [List.map_cons, List.map_append]
      rw [h0, h1, h2, h3]
      simp only [Option.getD_some]
      have hp := pairwise_statusLe_shape
        (.running :: ((run_stages_trace settings execs
          ((m.create_run rid name request).1.mark_run_started rid) rid []
            EXECUTED_STAGE_ORDER).map (fun x => (statusOf x rid).getD .queued) ++ [.running]))
        .completed ?_ (by decide)
      · simpa [List.append_assoc, List.cons_append, List.singleton_append] using hp
      · intro x hx
        rw [List.mem_cons] at hx
        rcases hx with rfl | hx
        · rfl
        rw [List.mem_append] at hx
        rcases hx with hx | hx
        · obtain ⟨y, hy, rfl⟩ := List.mem_map.mp hx
          rw [hstr y hy]
          rfl
        rw [List.mem_singleton] at hx
        exact hx
  | error exc =>
    dsimp only
    have h3 : statusOf (m2.mark_run_failed rid exc) rid = some .error := by
      rw [statusOf, RunStateManager.mark_run_failed_findRun_self exc hst2]; rfl
    constructor
    · intro x hx
      rw [List.mem_cons] at hx
      rcases hx with rfl | hx
      · simp [h0]
      rw [List.mem_append] at hx
      rcases hx with hx | hx
      · rw [List.mem_cons] at hx
        rcases hx with rfl | hx
        · simp [h1]
        · simp [hstr x hx]
      rw [List.mem_singleton] at hx
      subst hx
      simp [h3]
    · simp only [List.map_cons, List.map_append]
      rw [h0, h1, h3]
      simp only [Option.getD_some]
      have hp := pairwise_statusLe_shape
        (.running :: (run_stages_trace settings execs
          ((m.create_run rid name request).1.mark_run_started rid) rid []
            EXECUTED_STAGE_ORDER).map (fun x => (statusOf x rid).getD .queued))
        .error ?_ (by decide)
      · simpa [List.append_assoc, List.cons_append, List.singleton_append] using hp
      · intro x hx
        rw [List.mem_cons] at hx
        rcases hx with rfl | hx
        · rfl
        obtain ⟨y, hy, rfl⟩ := List.mem_map.mp hx
        rw [hstr y hy]
        rfl

/-! ## C8: outputs are empty until the run completes -/

theorem outputsOf_some {x : RunStateManager} {rid : String} {st : RunState}
    (hfind : x.findRun rid = some st) : outputsOf x rid = some st.outputs := by
  rw [outputsOf, hfind]; rfl

/-- C8: at every registry state of a tracked execution, a run whose status
has not reached `completed` has an empty outputs bundle: the bundle is
empty before any terminal status, and can only become non-empty at the
transition to `completed`. -/
theorem outputs_empty_until_completed (settings : Settings) (execs : Execs)
    (m : RunStateManager) (rid name : String) (request : PipelineRunRequest)
    (now : String) (x : RunStateManager)
    (hx : x ∈ (m.create_run rid name request).1 ::
        execute_with_tracking_trace settings execs (m.create_run rid name request).1
          rid request now)
    (st : RunState) (hfind : x.findRun rid = some st)
    (hnc : st.status ≠ .completed) :
    st.outputs = [] := by
  have hcf := RunStateManager.create_run_findRun_self m rid name request
  have hout0 : outputsOf (m.create_run rid name request).1 rid = some [] := by
    rw [outputsOf, hcf]; rfl
  have hout1 : outputsOf ((m.create_run rid name request).1.mark_run_started rid) rid =
      some [] := by
    rw [RunStateManager.mark_run_started_outputsOf]; exact hout0
  rw [List.mem_cons] at hx
  rcases hx with rfl | hx
  · have hst : st = (m.create_run rid name request).2 :=
      Option.some.inj (hfind.symm.trans hcf)
    rw [hst]
    rfl
  rw [execute_with_tracking_trace] at hx
  rcases hex : execute settings execs
      ((m.create_run rid name request).1.mark_run_started rid) request (some rid) now with
    ⟨m2, res⟩
  rw [hex] at hx
  have hout2 : outputsOf m2 rid = some [] := by
    have h := execute_outputsOf settings execs
      ((m.create_run rid name request).1.mark_run_started rid) request rid now rid
    rw [hex] at h
    simpa [hout1] using h
  obtain ⟨st2, hst2⟩ : ∃ st2, m2.findRun rid = some st2 := by
    cases hf : m2.findRun rid with
    | none => rw [outputsOf, hf] at hout2; simp at hout2
    | some st2 => exact ⟨st2, rfl⟩
  have hst2out : st2.outputs = [] :=
    Option.some.inj ((outputsOf_some hst2).symm.trans hout2)
  cases res with
  | ok response =>
    dsimp only at hx
    rw [List.mem_append] at hx
    rcases hx with hx | hx
    · rw [List.mem_cons] at hx
      rcases hx with rfl | hx
      · exact Option.some.inj ((outputsOf_some hfind).symm.trans hout1)
      · have h := run_stages_trace_outputsOf settings execs rid _ _ _ x hx rid
        rw [hout1, outputsOf_some hfind] at h
        exact Option.some.inj h
    rw [List.mem_cons] at hx
    rcases hx with rfl | hx
    · exact Option.some.inj ((outputsOf_some hfind).symm.trans hout2)
    rw [List.mem_singleton] at hx
    subst hx
    rw [RunStateManager.mark_run_completed_findRun_self response hst2] at hfind
    obtain rfl := Option.some.inj hfind
    exact absurd rfl hnc
  | error exc =>
    dsimp only at hx
    rw [List.mem_append] at hx
    rcases hx with hx | hx
    · rw [List.mem_cons] at hx
      rcases hx with rfl | hx
      · exact Option.some.inj ((outputsOf_some hfind).symm.trans hout1)
      · have h := run_stages_trace_outputsOf settings execs rid _ _ _ x hx rid
        rw [hout1, outputsOf_some hfind] at h
        exact Option.some.inj h
    rw [List.mem_singleton] at hx
    subst hx
    rw [RunStateManager.mark_run_failed_findRun_self exc hst2] at hfind
    obtain rfl := Option.some.inj hfind
    exact hst2out

/-! ## Full characterization of one tracked execution -/

namespace RunStateManager

theorem mark_run_started_eq_setRun {m : RunStateManager} {rid : String}
    {st : RunState} (h : m.findRun rid = some st) :
    m.mark_run_started rid =
      m.setRun rid { st with status := .running,
                             queue := st.queue ++ [some (.run rid .running)] } := by
  rw [mark_run_started, h]

theorem mark_run_completed_eq_setRun {m : RunStateManager} {rid : String}
    {st : RunState} (response : PipelineRunResponse) (h : m.findRun rid = some st) :
    m.mark_run_completed rid response =
      m.setRun rid { st with status := .completed, outputs := response.outputs,
                             queue := st.queue ++
                               [some (.run rid .completed),
                                some (.complete rid response), none] } := by
  rw [mark_run_completed, h]

theorem mark_run_failed_eq_setRun {m : RunStateManager} {rid : String}
    {st : RunState} (message : String) (h : m.findRun rid = some st) :
    m.mark_run_failed rid message =
      m.setRun rid { st with status := .error,
                             queue := st.queue ++
                               [some (.run rid .error),
                                some (.error rid message), none] } := by
  rw [mark_run_failed, h]

end RunStateManager

/-- The stage dictionary `create_run` seeds. -/
def initialStagesDict : List (PipelineStage × PipelineStageSnapshot) :=
  PIPELINE_STAGE_ORDER.map (fun stage => (stage, RunStateManager.initialSnapshot stage))

/-- The snapshot list carried by the `init` event. -/
def initialStageList : List PipelineStageSnapshot :=
  PIPELINE_STAGE_ORDER.map RunStateManager.initialSnapshot

theorem create_run_fst (m : RunStateManager) (rid name : String)
    (request : PipelineRunRequest) :
    (m.create_run rid name request).1 =
      m.setRun rid ⟨rid, name, request, .queued, initialStagesDict, [],
        [some (.init rid name initialStageList)]⟩ := rfl

/-- The run record a tracked execution leaves behind, as a function of the
record it starts from: `running` status and `run` event first, then the
outcome-determined stage events and stage mapping, then the terminal
transition of `mark_run_completed` / `mark_run_failed`. -/
def finalState (settings : Settings) (execs : Execs) (rid : String) (st : RunState)
    (request : PipelineRunRequest) (now : String) : RunState :=
  let outs := stage_outcomes execs [] EXECUTED_STAGE_ORDER
  let base : RunState :=
    { st with status := PipelineRunStatus.running,
              queue := st.queue ++ [some (.run rid .running)] }
  match stages_result execs [] EXECUTED_STAGE_ORDER with
  | .ok acc =>
    let response : PipelineRunResponse :=
      ⟨request.run_name, outs.map (snapshotOfOutcome settings) ++ [completionSnapshot now],
        build_outputs settings acc⟩
    { base with
      status := .completed,
      outputs := response.outputs,
      stages := dictSet (applyOutcomes settings base.stages outs) .completed
        (completionSnapshot now),
      queue := (base.queue ++ stage_events settings rid outs) ++
        [some (.stage rid (completionSnapshot now)), some (.run rid .completed),
         some (.complete rid response), none] }
  | .error e =>
    { base with
      status := .error,
      stages := applyOutcomes settings base.stages outs,
      queue := (base.queue ++ stage_events settings rid outs) ++
        [some (.run rid .error), some (.error rid e), none] }

open RunStateManager in
theorem execute_with_tracking_char (settings : Settings) (execs : Execs)
    (m : RunStateManager) (rid : String) (st : RunState)
    (request : PipelineRunRequest) (now : String) (h : m.findRun rid = some st) :
    execute_with_tracking settings execs m rid request now =
      m.setRun rid (finalState settings execs rid st request now) := by
  rw [execute_with_tracking]
  rw [mark_run_started_eq_setRun h]
  have hch := run_stages_char settings execs rid EXECUTED_STAGE_ORDER
    (m.setRun rid { st with status := .running,
                            queue := st.queue ++ [some (.run rid .running)] })
    { st with status := .running, queue := st.queue ++ [some (.run rid .running)] }
    [] [] (findRun_setRun_self m rid _)
  rw [execute, hch]
  cases hres : stages_result execs [] EXECUTED_STAGE_ORDER with
  | ok acc =>
    dsimp only
    rw [update_stage_eq_setRun .completed "done" (completionSnapshot now).detail none
      (findRun_setRun_self _ rid _), setRun_setRun, setRun_setRun]
    rw [mark_run_completed_eq_setRun _ (findRun_setRun_self _ rid _), setRun_setRun]
    rw [finalState]
    rw [hres]
    dsimp only [completionSnapshot]
    simp only [List.nil_append, List.append_assoc, List.cons_append, List.singleton_append]
  | error e =>
    dsimp only
    rw [mark_run_failed_eq_setRun _ (findRun_setRun_self _ rid _), setRun_setRun]
    rw [finalState]
    rw [hres]
    dsimp only
    simp only [List.nil_append, List.append_assoc, List.cons_append, List.singleton_append]
    rw [setRun_setRun]

/-! ## Shape lemmas for the published event sequence -/

theorem create_run_snd (m : RunStateManager) (rid name : String)
    (request : PipelineRunRequest) :
    (m.create_run rid name request).2 =
      ⟨rid, name, request, .queued, initialStagesDict, [],
        [some (.init rid name initialStageList)]⟩ := rfl

theorem snapshotOfOutcome_stage (settings : Settings)
    (o : PipelineStage × Except String Value) :
    (snapshotOfOutcome settings o).stage = o.1 := by
  rcases o with ⟨s, v | e⟩ <;> rfl

theorem snapshotOfOutcome_status_ne_running (settings : Settings)
    (o : PipelineStage × Except String Value) :
    (snapshotOfOutcome settings o).status ≠ "running" := by
  rcases o with ⟨s, v | e⟩ <;> (dsimp only [snapshotOfOutcome]; decide)

theorem stage_outcomes_fst_prefix (execs : Execs) :
    ∀ (L : List PipelineStage) (acc : List Value),
      (stage_outcomes execs acc L).map Prod.fst <+: L := by
  intro L
  induction L with
  | nil => intro acc; simp [stage_outcomes]
  | cons stage rest ih =>
    intro acc
    rw [stage_outcomes]
    cases hex : execs stage acc with
    | ok v =>
      dsimp only
      rw [List.map_cons]
      exact List.cons_prefix_cons.mpr ⟨rfl, ih _⟩
    | error e =>
      dsimp only
      rw [List.map_cons, List.map_nil]
      exact List.cons_prefix_cons.mpr ⟨rfl, List.nil_prefix⟩

theorem chain_lt_EXECUTED :
    List.Chain' (fun a b => stageIdx a < stageIdx b) EXECUTED_STAGE_ORDER := by
  simp [EXECUTED_STAGE_ORDER, List.chain'_cons, stageIdx]

theorem stageIdx_le_six (p : PipelineStage) : stageIdx p ≤ 6 := by
  cases p <;> simp [stageIdx]

/-- Projection of a channel item to the snapshot of a `stage` event. -/
def stageEventSnapshot : Option Event → Option PipelineStageSnapshot
  | some (.stage _ snap) => some snap
  | _ => none

/-- The stage-event snapshots a list of outcomes publishes, in order. -/
def snapsSeq (settings : Settings) :
    List (PipelineStage × Except String Value) → List PipelineStageSnapshot
  | [] => []
  | o :: rest => runningSnapshot o.1 :: snapshotOfOutcome settings o :: snapsSeq settings rest

theorem stage_events_filterMap (settings : Settings) (rid : String) :
    ∀ outs, (stage_events settings rid outs).filterMap stageEventSnapshot =
      snapsSeq settings outs := by
  intro outs
  induction outs with
  | nil => rfl
  | cons o rest ih => simp [stage_events, snapsSeq, stageEventSnapshot, ih]

theorem stage_events_mem (settings : Settings) (rid : String) :
    ∀ (outs : List (PipelineStage × Except String Value)) (ev : Option Event),
      ev ∈ stage_events settings rid outs →
      ∃ snap, ev = some (.stage rid snap) ∧ snap.stage ∈ outs.map Prod.fst := by
  intro outs
  induction outs with
  | nil => intro ev h; simp [stage_events] at h
  | cons o rest ih =>
    intro ev h
    rw [stage_events, List.mem_cons] at h
    rcases h with rfl | h
    · exact ⟨runningSnapshot o.1, rfl, by simp [runningSnapshot]⟩
    rw [List.mem_cons] at h
    rcases h with rfl | h
    · exact ⟨snapshotOfOutcome settings o, rfl, by simp [snapshotOfOutcome_stage]⟩
    obtain ⟨snap, rfl, hs⟩ := ih ev h
    exact ⟨snap, rfl, by simp [hs]⟩

theorem chain_le_snapsSeq (settings : Settings) :
    ∀ (outs : List (PipelineStage × Except String Value))
      (rest : List PipelineStageSnapshot),
      List.Chain' (fun a b => stageIdx a < stageIdx b) (outs.map Prod.fst) →
      List.Chain' (fun a b => stageIdx a.stage ≤ stageIdx b.stage) rest →
      (∀ s ∈ rest.head?, ∀ p : PipelineStage, stageIdx p ≤ stageIdx s.stage) →
      List.Chain' (fun a b => stageIdx a.stage ≤ stageIdx b.stage)
        (snapsSeq settings outs ++ rest) := by
  intro outs
  induction outs with
  | nil => intro rest _ h2 _; simpa [snapsSeq] using h2
  | cons o rest' ih =>
    intro rest hout hrest hhead
    rw [snapsSeq, List.cons_append, List.cons_append, List.chain'_cons']
    constructor
    · intro y hy
      simp only [List.head?_cons, Option.mem_def, Option.some.injEq] at hy
      subst hy
      simp [runningSnapshot, snapshotOfOutcome_stage]
    rw [List.chain'_cons']
    constructor
    · intro y hy
      rw [snapshotOfOutcome_stage]
      cases rest' with
      | nil =>
        simp only [snapsSeq, List.nil_append] at hy
        exact hhead y hy o.1
      | cons o2 rest2 =>
        simp only [snapsSeq, List.cons_append, List.head?_cons, Option.mem_def,
          Option.some.injEq] at hy
        subst hy
        simp only [runningSnapshot]
        have hout' : stageIdx o.1 < stageIdx o2.1 ∧
            List.Chain' (fun a b => stageIdx a < stageIdx b)
              (o2.1 :: List.map Prod.fst rest2) := by
          simpa using hout
        exact Nat.le_of_lt hout'.1
    · exact ih rest (by simpa using hout.tail) hrest hhead

theorem chain_resolve_snapsSeq (settings : Settings) :
    ∀ (outs : List (PipelineStage × Except String Value))
      (rest : List PipelineStageSnapshot),
      List.Chain' (fun a b => a.status = "running" →
        b.stage = a.stage ∧ b.status ≠ "running") rest →
      (∀ s ∈ rest.head?, s.status ≠ "running") →
      List.Chain' (fun a b => a.status = "running" →
        b.stage = a.stage ∧ b.status ≠ "running")
        (snapsSeq settings outs ++ rest) := by
  intro outs
  induction outs with
  | nil => intro rest h2 _; simpa [snapsSeq] using h2
  | cons o rest' ih =>
    intro rest hrest hhead
    rw [snapsSeq, List.cons_append, List.cons_append, List.chain'_cons']
    constructor
    · intro y hy
      simp only [List.head?_cons, Option.mem_def, Option.some.injEq] at hy
      subst hy
      intro _
      exact ⟨by simp [runningSnapshot, snapshotOfOutcome_stage],
        snapshotOfOutcome_status_ne_running settings o⟩
    rw [List.chain'_cons']
    constructor
    · intro y _ hcontra
      exact absurd hcontra (snapshotOfOutcome_status_ne_running settings o)
    · exact ih rest hrest hhead

/-- Whether a channel event is terminal (`complete` or `error`). -/
def isTerminalEvent : Event → Bool
  | .complete _ _ => true
  | .error _ _ => true
  | _ => false

/-! ## C2: exactly one terminal event, immediately followed by closure -/

/-- C2: for every tracked run, the channel's publication log is a list of
non-terminal events followed by exactly one terminal event (`complete`
xor `error`), which is immediately followed by the closing sentinel; the
sentinel is the last item and occurs nowhere else. -/
theorem one_terminal_event_then_close (settings : Settings) (execs : Execs)
    (m : RunStateManager) (rid name : String) (request : PipelineRunRequest)
    (now : String) :
    ∃ stf pre t,
      (execute_with_tracking settings execs (m.create_run rid name request).1 rid
          request now).findRun rid = some stf ∧
      stf.queue = pre ++ [some t, none] ∧
      isTerminalEvent t = true ∧
      ∀ ev ∈ pre, ∃ e, ev = some e ∧ isTerminalEvent e = false := by
  have hcf := RunStateManager.create_run_findRun_self m rid name request
  rw [execute_with_tracking_char settings execs (m.create_run rid name request).1 rid _
    request now hcf]
  cases hres : stages_result execs [] EXECUTED_STAGE_ORDER with
  | ok acc =>
    refine ⟨_,
      some (.init rid name initialStageList) :: some (.run rid .running) ::
        (stage_events settings rid (stage_outcomes execs [] EXECUTED_STAGE_ORDER) ++
          [some (.stage rid (completionSnapshot now)), some (.run rid .completed)]),
      .complete rid ⟨request.run_name,
        (stage_outcomes execs [] EXECUTED_STAGE_ORDER).map (snapshotOfOutcome settings) ++
          [completionSnapshot now], build_outputs settings acc⟩,
      RunStateManager.findRun_setRun_self _ rid _, ?_, rfl, ?_⟩
    · simp [finalState, hres, create_run_snd, List.append_assoc]
    · intro ev hev
      rw [List.mem_cons] at hev
      rcases hev with rfl | hev
      · exact ⟨_, rfl, rfl⟩
      rw [List.mem_cons] at hev
      rcases hev with rfl | hev
      · exact ⟨_, rfl, rfl⟩
      rw [List.mem_append] at hev
      rcases hev with hev | hev
      · obtain ⟨snap, rfl, _⟩ := stage_events_mem settings rid _ ev hev
        exact ⟨_, rfl, rfl⟩
      rw [List.mem_cons] at hev
      rcases hev with rfl | hev
      · exact ⟨_, rfl, rfl⟩
      rw [List.mem_singleton] at hev
      subst hev
      exact ⟨_, rfl, rfl⟩
  | error e =>
    refine ⟨_,
      some (.init rid name initialStageList) :: some (.run rid .running) ::
        (stage_events settings rid (stage_outcomes execs [] EXECUTED_STAGE_ORDER) ++
          [some (.run rid .error)]),
      .error rid e,
      RunStateManager.findRun_setRun_self _ rid _, ?_, rfl, ?_⟩
    · simp [finalState, hres, create_run_snd, List.append_assoc]
    · intro ev hev
      rw [List.mem_cons] at hev
      rcases hev with rfl | hev
      · exact ⟨_, rfl, rfl⟩
      rw [List.mem_cons] at hev
      rcases hev with rfl | hev
      · exact ⟨_, rfl, rfl⟩
      rw [List.mem_append] at hev
      rcases hev with hev | hev
      · obtain ⟨snap, rfl, _⟩ := stage_events_mem settings rid _ ev hev
        exact ⟨_, rfl, rfl⟩
      rw [List.mem_singleton] at hev
      subst hev
      exact ⟨_, rfl, rfl⟩

/-! ## C5: per-run event ordering -/

/-- C5: for every tracked run, the publication log starts with the `init`
event (so `init` precedes every `stage` event); the `stage` events,
projected to their snapshots, carry StageIds in declared sequence order
(never decreasing), and a `running` snapshot is always immediately
followed by a `done`/`error` snapshot of the same stage (no stage is
`running` twice without an intervening `done`/`error`); and the log ends
with the terminal `run` status event plus the `complete`/`error` event,
with the channel-close sentinel after them. -/
theorem event_stream_ordered (settings : Settings) (execs : Execs)
    (m : RunStateManager) (rid name : String) (request : PipelineRunRequest)
    (now : String) :
    ∃ stf,
      (execute_with_tracking settings execs (m.create_run rid name request).1 rid
          request now).findRun rid = some stf ∧
      (∃ rest, stf.queue = some (.init rid name initialStageList) :: rest) ∧
      List.Chain' (fun a b => stageIdx a.stage ≤ stageIdx b.stage)
        (stf.queue.filterMap stageEventSnapshot) ∧
      List.Chain' (fun a b => a.status = "running" →
        b.stage = a.stage ∧ b.status ≠ "running")
        (stf.queue.filterMap stageEventSnapshot) ∧
      (∃ pre ts t, stf.queue = pre ++ [some (.run rid ts), some t, none] ∧
        (ts = .completed ∨ ts = .error) ∧ isTerminalEvent t = true) := by
  have hcf := RunStateManager.create_run_findRun_self m rid name request
  rw [execute_with_tracking_char settings execs (m.create_run rid name request).1 rid _
    request now hcf]
  have houts : (stage_outcomes execs [] EXECUTED_STAGE_ORDER).map Prod.fst <+:
      EXECUTED_STAGE_ORDER := stage_outcomes_fst_prefix execs EXECUTED_STAGE_ORDER []
  have hchain := chain_lt_EXECUTED.prefix houts
  cases hres : stages_result execs [] EXECUTED_STAGE_ORDER with
  | ok acc =>
    have hq : (finalState settings execs rid (m.create_run rid name request).2
        request now).queue.filterMap stageEventSnapshot =
        snapsSeq settings (stage_outcomes execs [] EXECUTED_STAGE_ORDER) ++
          [completionSnapshot now] := by
      simp [finalState, hres, create_run_snd, stageEventSnapshot,
        stage_events_filterMap, List.filterMap_append]
    refine ⟨_, RunStateManager.findRun_setRun_self _ rid _,
      ⟨some (.run rid .running) ::
        (stage_events settings rid (stage_outcomes execs [] EXECUTED_STAGE_ORDER) ++
          [some (.stage rid (completionSnapshot now)), some (.run rid .completed),
           some (.complete rid ⟨request.run_name,
             (stage_outcomes execs [] EXECUTED_STAGE_ORDER).map
               (snapshotOfOutcome settings) ++ [completionSnapshot now],
             build_outputs settings acc⟩), none]), ?_⟩, ?_, ?_, ?_⟩
    · simp [finalState, hres, create_run_snd]
    · rw [hq]
      refine chain_le_snapsSeq settings _ _ hchain (List.chain'_singleton _) ?_
      intro s hs p
      simp only [List.head?_cons, Option.mem_def, Option.some.injEq] at hs
      subst hs
      simpa [completionSnapshot, stageIdx] using stageIdx_le_six p
    · rw [hq]
      refine chain_resolve_snapsSeq settings _ _ (List.chain'_singleton _) ?_
      intro s hs
      simp only [List.head?_cons, Option.mem_def, Option.some.injEq] at hs
      subst hs
      dsimp only [completionSnapshot]
      decide
    · refine ⟨some (.init rid name initialStageList) :: some (.run rid .running) ::
        (stage_events settings rid (stage_outcomes execs [] EXECUTED_STAGE_ORDER) ++
          [some (.stage rid (completionSnapshot now))]),
        .completed, .complete rid ⟨request.run_name,
          (stage_outcomes execs [] EXECUTED_STAGE_ORDER).map
            (snapshotOfOutcome settings) ++ [completionSnapshot now],
          build_outputs settings acc⟩, ?_, Or.inl rfl, rfl⟩
      simp [finalState, hres, create_run_snd, List.append_assoc]
  | error e =>
    have hq : (finalState settings execs rid (m.create_run rid name request).2
        request now).queue.filterMap stageEventSnapshot =
        snapsSeq settings (stage_outcomes execs [] EXECUTED_STAGE_ORDER) := by
      simp [finalState, hres, create_run_snd, stageEventSnapshot,
        stage_events_filterMap, List.filterMap_append]
    refine ⟨_, RunStateManager.findRun_setRun_self _ rid _,
      ⟨some (.run rid .running) ::
        (stage_events settings rid (stage_outcomes execs [] EXECUTED_STAGE_ORDER) ++
          [some (.run rid .error), some (.error rid e), none]), ?_⟩, ?_, ?_, ?_⟩
    · simp [finalState, hres, create_run_snd]
    · rw [hq]
      have hc := chain_le_snapsSeq settings
        (stage_outcomes execs [] EXECUTED_STAGE_ORDER) [] hchain List.chain'_nil
        (by intro s hs p; simp at hs)
      simpa using hc
    · rw [hq]
      have hc := chain_resolve_snapsSeq settings
        (stage_outcomes execs [] EXECUTED_STAGE_ORDER) [] List.chain'_nil
        (by intro s hs; simp at hs)
      simpa using hc
    · refine ⟨some (.init rid name initialStageList) :: some (.run rid .running) ::
        stage_events settings rid (stage_outcomes execs [] EXECUTED_STAGE_ORDER),
        .error, .error rid e, ?_, Or.inr rfl, rfl⟩
      simp [finalState, hres, create_run_snd, List.append_assoc]

/-! ## C1: a stage failure aborts the run -/

theorem applyOutcomes_append (settings : Settings)
    (outs1 outs2 : List (PipelineStage × Except String Value)) :
    ∀ d, applyOutcomes settings d (outs1 ++ outs2) =
      applyOutcomes settings (applyOutcomes settings d outs1) outs2 := by
  induction outs1 with
  | nil => intro d; rfl
  | cons o rest ih => intro d; rw [List.cons_append, applyOutcomes, applyOutcomes, ih]

theorem applyOutcomes_last (settings : Settings)
    (d : List (PipelineStage × PipelineStageSnapshot))
    (outs0 : List (PipelineStage × Except String Value))
    (o : PipelineStage × Except String Value) :
    dictGet (applyOutcomes settings d (outs0 ++ [o])) o.1 =
      some (snapshotOfOutcome settings o) := by
  rw [applyOutcomes_append]
  rw [applyOutcomes, applyOutcomes]
  exact dictGet_dictSet_self _ _ _

theorem stageIdx_EXECUTED (i : Nat) (h : i < EXECUTED_STAGE_ORDER.length) :
    stageIdx (EXECUTED_STAGE_ORDER[i]) = i := by
  simp only [EXECUTED_STAGE_ORDER, List.length_cons, List.length_nil] at h
  interval_cases i <;> rfl

theorem mem_prefix_stageIdx {l : List PipelineStage}
    (hpre : l <+: EXECUTED_STAGE_ORDER) {s : PipelineStage} (hs : s ∈ l) :
    stageIdx s < l.length := by
  obtain ⟨i, hi, rfl⟩ := List.mem_iff_getElem.mp hs
  rw [hpre.getElem hi, stageIdx_EXECUTED]
  exact hi

theorem stages_result_of_failure (execs : Execs) :
    ∀ (L : List PipelineStage) (acc : List Value)
      (outs0 : List (PipelineStage × Except String Value)) (sk : PipelineStage)
      (msg : String),
      stage_outcomes execs acc L = outs0 ++ [(sk, .error msg)] →
      stages_result execs acc L = .error ("Stage " ++ sk.value ++ " failed") := by
  intro L
  induction L with
  | nil =>
    intro acc outs0 sk msg h
    rw [stage_outcomes] at h
    exact absurd h.symm (by simp)
  | cons stage rest ih =>
    intro acc outs0 sk msg h
    rw [stage_outcomes] at h
    rw [stages_result]
    cases hex : execs stage acc with
    | ok v =>
      rw [hex] at h
      dsimp only at h ⊢
      cases outs0 with
      | nil => simp at h
      | cons o1 os =>
        rw [List.cons_append] at h
        have h2 := (List.cons.inj h).2
        exact ih _ os sk msg h2
    | error e0 =>
      rw [hex] at h
      dsimp only at h ⊢
      cases outs0 with
      | nil =>
        simp only [List.nil_append, List.cons.injEq, and_true] at h
        obtain ⟨h1, -⟩ := Prod.mk.inj h
        subst h1
        rfl
      | cons o1 os =>
        rw [List.cons_append] at h
        have h2 := (List.cons.inj h).2
        exact absurd h2.symm (by simp)

/-- C1: if, on a tracked run, the stage executor at position `k` of the
fixed sequence fails (the stages before it having succeeded, which is
what the outcome-list hypothesis states), then the failing stage sits at
declared position `k`; the stage loop re-raises the failure tagged with
the failing StageId (`Stage <id> failed`); in the final registry the
failing stage's snapshot has status `error` with the failure message as
detail; every published `stage` event is for a position `≤ k` — none for
positions `k+1..N`, whose stages are never executed; the terminal `error`
event carries the tagged message; and the run's final status is `error`. -/
theorem stage_failure_aborts_run (settings : Settings) (execs : Execs)
    (m : RunStateManager) (rid name : String) (request : PipelineRunRequest)
    (now : String) (k : Nat) (outs0 : List (PipelineStage × Except String Value))
    (sk : PipelineStage) (msg : String)
    (houts : stage_outcomes execs [] EXECUTED_STAGE_ORDER = outs0 ++ [(sk, .error msg)])
    (hk : outs0.length = k) :
    stageIdx sk = k ∧
    stages_result execs [] EXECUTED_STAGE_ORDER =
      .error ("Stage " ++ sk.value ++ " failed") ∧
    ∃ stf,
      (execute_with_tracking settings execs (m.create_run rid name request).1 rid
          request now).findRun rid = some stf ∧
      dictGet stf.stages sk = some ⟨sk, "error", some msg, none⟩ ∧
      (∀ snap : PipelineStageSnapshot,
        some (Event.stage rid snap) ∈ stf.queue → stageIdx snap.stage ≤ k) ∧
      some (Event.error rid ("Stage " ++ sk.value ++ " failed")) ∈ stf.queue ∧
      stf.status = .error := by
  subst hk
  have hres := stages_result_of_failure execs EXECUTED_STAGE_ORDER [] outs0 sk msg houts
  have hpre := stage_outcomes_fst_prefix execs EXECUTED_STAGE_ORDER []
  rw [houts] at hpre
  have hlen : outs0.length <
      ((outs0 ++ [(sk, Except.error msg)]).map Prod.fst).length := by
    simp
  have hid : ((outs0 ++ [(sk, Except.error msg)]).map Prod.fst).get
      ⟨outs0.length, hlen⟩ = sk := by
    simp
  have hsk : stageIdx sk = outs0.length := by
    rw [← hid, List.get_eq_getElem, hpre.getElem hlen, stageIdx_EXECUTED]
  have hmem_idx : ∀ s ∈ (outs0 ++ [(sk, Except.error msg)]).map Prod.fst,
      stageIdx s ≤ outs0.length := by
    intro s hs
    have h := mem_prefix_stageIdx hpre hs
    simp only [List.length_map, List.length_append, List.length_cons,
      List.length_nil] at h
    omega
  refine ⟨hsk, hres, ?_⟩
  have hcf := RunStateManager.create_run_findRun_self m rid name request
  rw [execute_with_tracking_char settings execs (m.create_run rid name request).1 rid _
    request now hcf]
  refine ⟨_, RunStateManager.findRun_setRun_self _ rid _, ?_, ?_, ?_, ?_⟩
  · show dictGet (finalState settings execs rid (m.create_run rid name request).2
      request now).stages sk = _
    simp only [finalState, hres, create_run_snd, houts]
    exact applyOutcomes_last settings initialStagesDict outs0 (sk, .error msg)
  · intro snap hsnap
    have hqq : (finalState settings execs rid (m.create_run rid name request).2
        request now).queue =
        some (.init rid name initialStageList) :: some (.run rid .running) ::
          (stage_events settings rid (outs0 ++ [(sk, .error msg)]) ++
            [some (.run rid .error),
             some (.error rid ("Stage " ++ sk.value ++ " failed")), none]) := by
      simp [finalState, hres, create_run_snd, houts, List.append_assoc]
    rw [hqq, List.mem_cons] at hsnap
    rcases hsnap with heq | hsnap
    · exact absurd heq (by simp)
    rw [List.mem_cons] at hsnap
    rcases hsnap with heq | hsnap
    · exact absurd heq (by simp)
    rw [List.mem_append] at hsnap
    rcases hsnap with hsnap | hsnap
    · obtain ⟨snap', heq, hs⟩ := stage_events_mem settings rid _ _ hsnap
      obtain rfl : snap = snap' := by
        have := Option.some.inj heq
        exact (Event.stage.inj this).2
      exact hmem_idx snap.stage hs
    · rw [List.mem_cons] at hsnap
      rcases hsnap with heq | hsnap
      · exact absurd heq (by simp)
      rw [List.mem_cons] at hsnap
      rcases hsnap with heq | hsnap
      · exact absurd heq (by simp)
      rw [List.mem_singleton] at hsnap
      exact absurd hsnap (by simp)
  · show _ ∈ (finalState settings execs rid (m.create_run rid name request).2
      request now).queue
    simp [finalState, hres, create_run_snd, houts]
  · show (finalState settings execs rid (m.create_run rid name request).2
      request now).status = _
    simp [finalState, hres]

/-- Executors that succeed on `ingest` and fail on every later stage. -/
def demoFailExecs : Execs := fun stage _ =>
  match stage with
  | .ingest => .ok (.dict [("assets", .list [])])
  | _ => .error "boom"

/-- Witness for C1: the `narrative` executor (position 1) fails. -/
theorem stage_failure_aborts_run_witness :
    stageIdx .narrative = 1 ∧
    stages_result demoFailExecs [] EXECUTED_STAGE_ORDER =
      .error ("Stage " ++ PipelineStage.narrative.value ++ " failed") ∧
    ∃ stf,
      (execute_with_tracking ⟨"/out"⟩ demoFailExecs
          ((⟨[]⟩ : RunStateManager).create_run "run1" "demo" demoRequest).1 "run1"
          demoRequest "T").findRun "run1" = some stf ∧
      dictGet stf.stages .narrative = some ⟨.narrative, "error", some "boom", none⟩ ∧
      (∀ snap : PipelineStageSnapshot,
        some (Event.stage "run1" snap) ∈ stf.queue → stageIdx snap.stage ≤ 1) ∧
      some (Event.error "run1" ("Stage " ++ PipelineStage.narrative.value ++ " failed")) ∈
        stf.queue ∧
      stf.status = .error :=
  stage_failure_aborts_run ⟨"/out"⟩ demoFailExecs ⟨[]⟩ "run1" "demo" demoRequest "T" 1
    [(.ingest, .ok (.dict [("assets", .list [])]))] .narrative "boom" rfl rfl

/-! ## C6: payload sanitization -/

/-- The spec's side condition for path rewriting: the string parses as a
path under the configured output root (same anchor, root components a
prefix of the path's components, and non-empty). -/
def under_output_root (settings : Settings) (s : String) : Prop :=
  s ≠ "" ∧ isAbsPath s = isAbsPath settings.outputs_dir ∧
    pathParts settings.outputs_dir <+: pathParts s

/-- The public `outputs/<path-under-root>` form of a path under the root. -/
def public_rel_form (settings : Settings) (s : String) : String :=
  "outputs/" ++
    (if ((pathParts s).drop (pathParts settings.outputs_dir).length).isEmpty then "."
     else String.intercalate "/" ((pathParts s).drop (pathParts settings.outputs_dir).length))

theorem rewrite_asset_path_spec (settings : Settings) (s : String) :
    (under_output_root settings s →
      rewrite_asset_path settings s = public_rel_form settings s) ∧
    (¬ under_output_root settings s → rewrite_asset_path settings s = s) := by
  constructor
  · rintro ⟨h1, h2, h3⟩
    rw [rewrite_asset_path, public_asset_path]
    rw [if_neg h1, if_pos]
    · rfl
    · simp [h2, List.isPrefixOf_iff_prefix.mpr h3]
  · intro hnot
    by_cases h1 : s = ""
    · subst h1
      rfl
    rw [rewrite_asset_path, public_asset_path, if_neg h1, if_neg]
    · rfl
    · intro hcond
      simp only [Bool.and_eq_true, decide_eq_true_eq, List.isPrefixOf_iff_prefix] at hcond
      exact hnot ⟨h1, hcond.1, hcond.2⟩

theorem filterMap_forall2 {α β : Type} (f : α → Option β) :
    ∀ l : List α, List.Forall₂ (fun a b => f a = some b)
      (l.filter (fun a => (f a).isSome)) (l.filterMap f) := by
  intro l
  induction l with
  | nil => exact List.Forall₂.nil
  | cons a as ih =>
    cases hf : f a with
    | none => simpa [List.filter_cons, List.filterMap_cons, hf] using ih
    | some b =>
      have hcons : List.Forall₂ (fun a b => f a = some b)
          (a :: List.filter (fun a => (f a).isSome) as) (b :: List.filterMap f as) :=
        List.Forall₂.cons hf ih
      simpa [List.filter_cons, List.filterMap_cons, hf] using hcons

theorem reduce_asset_eq_some {item red : Value} (h : reduce_asset item = some red) :
    ∃ d, item = Value.dict d ∧
      red = Value.dict [("id", vget d "id"), ("local_path", vget d "local_path"),
        ("license", vget d "license")] := by
  cases item <;> simp [reduce_asset] at h
  case dict d => exact ⟨d, rfl, h.symm⟩

/-- C6 (amended): the sanitization of a dict-shaped stage payload acts
entrywise, preserving keys: entries under an `assets` key (only the
`ingest` stage produces one) are reduced to exactly identifier, local
path and license, with non-dict entries dropped; a string value whose
path lies under the configured output root is rewritten to the relative
`outputs/<path-under-root>` form and every other string value passes
through unchanged; integer and float values pass through unchanged; and
every value of any other kind is coerced to its string form. -/
theorem sanitize_payload_spec (settings : Settings) (es : List (String × Value)) :
    ∃ es', sanitize_payload settings (.dict es) = Value.dict es' ∧
      List.Forall₂ (fun kv kv' : String × Value =>
        kv'.1 = kv.1 ∧
        (if kv.1 = "assets" then
          ∃ out : List Value, kv'.2 = .list out ∧
            List.Forall₂ (fun item red => ∃ d, item = Value.dict d ∧
                red = Value.dict [("id", vget d "id"),
                  ("local_path", vget d "local_path"), ("license", vget d "license")])
              ((iterValues kv.2).filter (fun item => (reduce_asset item).isSome)) out
        else
          match kv.2 with
          | .str s => (under_output_root settings s →
                kv'.2 = .str (public_rel_form settings s)) ∧
              (¬ under_output_root settings s → kv'.2 = .str s)
          | .int n => kv'.2 = .int n
          | .float q => kv'.2 = .float q
          | v => kv'.2 = .str (pyStr v))) es es' := by
  refine ⟨es.map (sanitize_entry settings), rfl, ?_⟩
  rw [List.forall₂_map_right_iff]
  rw [List.forall₂_same]
  intro kv _
  obtain ⟨k0, v0⟩ := kv
  by_cases hk : k0 = "assets"
  · rw [if_pos hk]
    refine ⟨by simp [sanitize_entry, hk], ?_⟩
    refine ⟨(iterValues v0).filterMap reduce_asset, by simp [sanitize_entry, hk], ?_⟩
    exact List.Forall₂.imp (fun a b h => reduce_asset_eq_some h)
      (filterMap_forall2 reduce_asset (iterValues v0))
  · rw [if_neg hk]
    refine ⟨by cases v0 <;> simp [sanitize_entry, hk], ?_⟩
    cases v0 with
    | str s =>
      refine ⟨?_, ?_⟩
      · intro hu
        have hr := (rewrite_asset_path_spec settings s).1 hu
        simp [sanitize_entry, hk, hr]
      · intro hu
        have hr := (rewrite_asset_path_spec settings s).2 hu
        simp [sanitize_entry, hk, hr]
    | int n => simp [sanitize_entry, hk]
    | float q => simp [sanitize_entry, hk]
    | pynone => simp [sanitize_entry, hk]
    | list items => simp [sanitize_entry, hk]
    | tup items => simp [sanitize_entry, hk]
    | dict d => simp [sanitize_entry, hk]

/-- Counterexample to C6 as stated: on the payload `\x7b"count": 3\x7d`
the integer survives sanitization as an integer — it is not coerced to
its string form, contradicting "every value of any other kind is coerced
to its string form". -/
theorem sanitize_payload_claim_counterexample :
    sanitize_payload ⟨"/data/outputs"⟩ (.dict [("count", .int 3)]) =
      .dict [("count", .int 3)] ∧
    ¬ ∃ s : String, (Value.int 3) = (Value.str s) := by
  constructor
  · rfl
  · rintro ⟨s, h⟩
    exact Value.noConfusion h

/-- Witness for C8: the freshly created demo run (status `queued`, the
head of the execution trace) has empty outputs. -/
theorem outputs_empty_until_completed_witness : demoRunState.outputs = [] :=
  outputs_empty_until_completed ⟨"/out"⟩ demoFailExecs ⟨[]⟩ "run1" "demo" demoRequest
    "T" demoManager (List.mem_cons_self _ _) demoRunState rfl (by decide)
